import Mathlib

/-!
Verification of the task-waiting core of `vmware.py` (functions
`WaitForTasks`, `turn_vm_on`, `turn_vm_off`, `revert_vm`), via a shallow
embedding of the Python source into Lean.

Modelling conventions:
* A pyVmomi task handle is modelled by its string form `str(task)`
  (field `id`) together with its `info.error` payload (field `infoError`),
  which is the only data of a task the waiter ever reads.
* `vim.TaskInfo.State` becomes the enumeration `TaskState`.
* A property-collector change record carries a field `name` and a value
  that is either an info object exposing a `state` component (`ChangeVal.obj`)
  or a bare state value (`ChangeVal.raw`), matching the two shapes the
  source dispatches on (`'info'` versus `'info.state'`).
* The blocking `pc.WaitForUpdates` stream is modelled by a list of
  `UpdateSet` batches handed to the wait loop; an exhausted list with a
  non-empty task list models the loop blocking forever (`WaitResult.blocked`).
* Side effects relevant to the claims (filter creation/destruction, the
  cursor passed to each receive, task submissions, waits) are recorded as
  explicit event traces.
-/

abbrev TaskId := String

abbrev ErrPayload := String

abbrev Version := Nat

/-- The `vim.TaskInfo.State` enumeration. -/
inductive TaskState where
  | queued
  | running
  | success
  | error
deriving DecidableEq, Repr

/-- A task handle: its `str(task)` form and its `task.info.error` payload. -/
structure VmTask where
  id : TaskId
  infoError : ErrPayload
deriving DecidableEq, Repr

/-- The value of a change record: either an info object with a `state`
component, or a bare state value. -/
inductive ChangeVal where
  | obj (state : TaskState)
  | raw (state : TaskState)
deriving DecidableEq, Repr

/-- One change record of an object update (`change.name`, `change.val`). -/
structure Change where
  name : String
  val : ChangeVal
deriving DecidableEq, Repr

/-- One `objSet` entry: the task object and its change records. -/
structure ObjectUpdate where
  obj : VmTask
  changeSet : List Change
deriving DecidableEq, Repr

/-- One `filterSet` entry of an update batch. -/
structure FilterUpdate where
  objectSet : List ObjectUpdate
deriving DecidableEq, Repr

/-- One batch returned by `pc.WaitForUpdates`: filter sets plus the new
version token. -/
structure UpdateSet where
  filterSet : List FilterUpdate
  version : Version
deriving DecidableEq, Repr

/-- The state a change record reports, per the dispatch at lines 75-80 of
the source: field `'info'` takes the `state` component of the value, field
`'info.state'` takes the value itself, and any other field is skipped
(`continue`).  A record whose value shape does not match its field name is
treated as unrecognized (in Python such a record would be a dynamic-type
accident; no claim exercises that shape). -/
def stateOf (c : Change) : Option TaskState :=
  if c.name = "info" then
    match c.val with
    | ChangeVal.obj st => some st
    | ChangeVal.raw _ => none
  else if c.name = "info.state" then
    match c.val with
    | ChangeVal.raw st => some st
    | ChangeVal.obj _ => none
  else none

/-- The body of the innermost loop (lines 74-89): dispatch on the field
name, skip records for tasks not in `taskList`, remove the task on
`success`, raise `task.info.error` on `error`. -/
def processChange (tl : List TaskId) (task : VmTask) (c : Change) :
    Except ErrPayload (List TaskId) :=
  match stateOf c with
  | none => Except.ok tl
  | some state =>
    if task.id ∈ tl then
      if state = TaskState.success then Except.ok (tl.erase task.id)
      else if state = TaskState.error then Except.error task.infoError
      else Except.ok tl
    else Except.ok tl

/-- The `for change in objSet.changeSet` loop; a raise escapes it. -/
def processChanges (task : VmTask) (tl : List TaskId) :
    List Change → Except ErrPayload (List TaskId)
  | [] => Except.ok tl
  | c :: cs =>
    match processChange tl task c with
    | Except.error e => Except.error e
    | Except.ok tl2 => processChanges task tl2 cs

/-- The `for objSet in filterSet.objectSet` loop. -/
def processObjSets (tl : List TaskId) :
    List ObjectUpdate → Except ErrPayload (List TaskId)
  | [] => Except.ok tl
  | o :: os =>
    match processChanges o.obj tl o.changeSet with
    | Except.error e => Except.error e
    | Except.ok tl2 => processObjSets tl2 os

/-- The `for filterSet in update.filterSet` loop. -/
def processFilterSets (tl : List TaskId) :
    List FilterUpdate → Except ErrPayload (List TaskId)
  | [] => Except.ok tl
  | f :: fs =>
    match processObjSets tl f.objectSet with
    | Except.error e => Except.error e
    | Except.ok tl2 => processFilterSets tl2 fs

/-- Processing one whole `WaitForUpdates` batch. -/
def processUpdate (tl : List TaskId) (u : UpdateSet) :
    Except ErrPayload (List TaskId) :=
  processFilterSets tl u.filterSet

/-- The outcome of a wait: all tasks succeeded, a remote task error was
raised, or the stream ran dry while tasks remained (the real loop blocks
forever inside `WaitForUpdates` in that case). -/
inductive WaitResult where
  | success
  | taskError (e : ErrPayload)
  | blocked
deriving DecidableEq, Repr

/-- Observable resource events of one `WaitForTasks` call. -/
inductive Event where
  | createFilter
  | receive (cursor : Option Version)
  | destroyFilter
deriving DecidableEq, Repr

/-- The `while len(taskList)` loop (lines 69-91), threading the `version`
cursor and recording each `WaitForUpdates` call as a `receive` event with
the cursor it was passed. -/
def waitLoopEv (updates : List UpdateSet) (version : Option Version)
    (tl : List TaskId) : WaitResult × List Event :=
  if tl.isEmpty then (WaitResult.success, [])
  else
    match updates with
    | [] => (WaitResult.blocked, [Event.receive version])
    | u :: rest =>
      match processUpdate tl u with
      | Except.error e => (WaitResult.taskError e, [Event.receive version])
      | Except.ok tl2 =>
        let p := waitLoopEv rest (some u.version) tl2
        (p.1, Event.receive version :: p.2)

/-- `WaitForTasks(tasks, si)` (lines 45-94): build `taskList`, create the
filter (always, even for an empty task collection), run the loop with the
cursor initially unset, and destroy the filter in the `finally` block on
every path on which control leaves the loop (a blocked loop never reaches
the `finally`). -/
def WaitForTasks (tasks : List VmTask) (updates : List UpdateSet) :
    WaitResult × List Event :=
  let taskList := tasks.map VmTask.id
  let p := waitLoopEv updates none taskList
  (p.1, Event.createFilter :: p.2 ++
    (if p.1 = WaitResult.blocked then [] else [Event.destroyFilter]))

/-- The result of the wait loop alone, started as `WaitForTasks` starts it. -/
def waitLoop (updates : List UpdateSet) (tl : List TaskId) : WaitResult :=
  (waitLoopEv updates none tl).1

/-- Processing every batch of a stream in order, with the early exit a
raise gives, but without the loop's emptiness check (processing a batch
against an empty task list is a no-op, so this matches the loop wherever
the loop consumes). -/
def runUpdates (tl : List TaskId) :
    List UpdateSet → Except ErrPayload (List TaskId)
  | [] => Except.ok tl
  | u :: rest =>
    match processUpdate tl u with
    | Except.error e => Except.error e
    | Except.ok tl2 => runUpdates tl2 rest

/-- All (task, change) occurrences of one batch, in processing order. -/
def updateOccs (u : UpdateSet) : List (VmTask × Change) :=
  u.filterSet.flatMap fun fs =>
    fs.objectSet.flatMap fun os =>
      os.changeSet.map fun c => (os.obj, c)

/-- Sequential processing of a flat occurrence list. -/
def processOccs (tl : List TaskId) :
    List (VmTask × Change) → Except ErrPayload (List TaskId)
  | [] => Except.ok tl
  | p :: ps =>
    match processChange tl p.1 p.2 with
    | Except.error e => Except.error e
    | Except.ok tl2 => processOccs tl2 ps

/-- A batch contains a Success record for the given task id. -/
def hasSuccessFor (u : UpdateSet) (id : TaskId) : Prop :=
  ∃ p ∈ updateOccs u, p.1.id = id ∧ stateOf p.2 = some TaskState.success

instance (u : UpdateSet) (id : TaskId) : Decidable (hasSuccessFor u id) := by
  unfold hasSuccessFor
  infer_instance

/-- The cursors passed to the successive `WaitForUpdates` calls of a trace. -/
def receiveCursors (evs : List Event) : List (Option Version) :=
  evs.filterMap fun e =>
    match e with
    | Event.receive c => some c
    | _ => none

/-- `vim.VirtualMachinePowerState`. -/
inductive PowerState where
  | poweredOn
  | poweredOff
  | suspended
deriving DecidableEq, Repr

/-- A snapshot-tree node: `snapshot.name`, the snapshot object
(`snapshot.snapshot`, modelled by an identifier), and
`snapshot.childSnapshotList`. -/
inductive SnapshotTree where
  | node (name : String) (snapshot : String)
      (childSnapshotList : List SnapshotTree)

def SnapshotTree.name : SnapshotTree → String
  | SnapshotTree.node n _ _ => n

def SnapshotTree.snapshot : SnapshotTree → String
  | SnapshotTree.node _ s _ => s

def SnapshotTree.childSnapshotList : SnapshotTree → List SnapshotTree
  | SnapshotTree.node _ _ c => c

/-- A virtual machine as the three functions read it: `vm.name`,
`vm.runtime.powerState`, `vm.snapshot.rootSnapshotList`. -/
structure VM where
  name : String
  powerState : PowerState
  rootSnapshotList : List SnapshotTree

/-- `snap_obj.RevertToSnapshot_Task()`: submitting the revert yields a task
handle for the given snapshot object (its error payload is opaque to the
claims; the id records which snapshot object was reverted). -/
def RevertToSnapshot_Task (snap : String) : VmTask :=
  VmTask.mk snap ""

/-- The mutable locals of `revert_vm` (lines 119-145): the
`snapshot_found` flag, the last value assigned to `task` (unset before any
match), and, for the effect claims, the trace of snapshot objects on which
`RevertToSnapshot_Task()` was actually called. -/
structure SearchState where
  snapshot_found : Bool
  task : Option (List VmTask)
  submits : List String
deriving Repr

/-- The state written by the match branches (lines 127-130 and their
copies): set the flag, submit the revert, overwrite `task` with a
singleton list. -/
def submitRevert (st : SearchState) (snap : String) : SearchState :=
  SearchState.mk true (some [RevertToSnapshot_Task snap]) (st.submits ++ [snap])

/-- The `for subsnapshot2 in subsnapshot.childSnapshotList` loop
(lines 139-145): a direct name match submits and breaks this loop; there
is no deeper loop. -/
def scanL3 (snapshot_name : String) (st : SearchState) :
    List SnapshotTree → SearchState
  | [] => st
  | s :: rest =>
    if snapshot_name = s.name then submitRevert st s.snapshot
    else scanL3 snapshot_name st rest

/-- The `for subsnapshot in snapshot.childSnapshotList` loop
(lines 132-145): a direct match submits and breaks this loop; otherwise
the level-3 loop runs and iteration continues. -/
def scanL2 (snapshot_name : String) (st : SearchState) :
    List SnapshotTree → SearchState
  | [] => st
  | s :: rest =>
    if snapshot_name = s.name then submitRevert st s.snapshot
    else scanL2 snapshot_name (scanL3 snapshot_name st s.childSnapshotList) rest

/-- The `for snapshot in snapshots` loop (lines 123-145): a direct match
submits and breaks this loop; otherwise the level-2 loop runs and
iteration continues. -/
def scanL1 (snapshot_name : String) (st : SearchState) :
    List SnapshotTree → SearchState
  | [] => st
  | s :: rest =>
    if snapshot_name = s.name then submitRevert st s.snapshot
    else scanL1 snapshot_name (scanL2 snapshot_name st s.childSnapshotList) rest

/-- What `revert_vm` does after the search: wait on the last submitted
singleton task list, or report the snapshot as not found. -/
inductive RevertOutcome where
  | reverted (waitedOn : List VmTask)
  | notFound
deriving Repr

/-- The `for vm in vmList` loop of `revert_vm` (lines 120-145): scan the
snapshot tree of every VM whose name was requested, threading the shared
mutable locals. -/
def revertScan (vmList : List VM) (vmnames : List String)
    (snapshot_name : String) : SearchState :=
  vmList.foldl
    (fun st vm =>
      if vm.name ∈ vmnames then scanL1 snapshot_name st vm.rootSnapshotList
      else st)
    (SearchState.mk false none [])

/-- `revert_vm(vmList, vmnames, snapshot_name, si)` (lines 118-152): scan
every matching VM's snapshot tree three levels deep, then either call
`WaitForTasks` on the last `task` value (recorded by `reverted`) or print
not-found (recorded by `notFound`).  The second component is the trace of
all `RevertToSnapshot_Task()` submissions. -/
def revert_vm (vmList : List VM) (vmnames : List String)
    (snapshot_name : String) : RevertOutcome × List String :=
  let st := revertScan vmList vmnames snapshot_name
  if st.snapshot_found then
    match st.task with
    | some tl => (RevertOutcome.reverted tl, st.submits)
    | none => (RevertOutcome.notFound, st.submits)
  else (RevertOutcome.notFound, st.submits)

/-- The snapshot name occurs within the first `d` levels of the forest
(roots are at level 1), the region the three nested loops can reach. -/
def foundWithin (snapshot_name : String) : Nat → List SnapshotTree → Bool
  | 0, _ => false
  | d + 1, forest =>
    forest.any fun s =>
      snapshot_name = s.name || foundWithin snapshot_name d s.childSnapshotList

/-- Observable effects of `turn_vm_on` / `turn_vm_off`: submitting a
power task for a VM and waiting (via `WaitForTasks`) on that VM's
singleton task list. -/
inductive PowerEvent where
  | onTask (vm : VM)
  | offTask (vm : VM)
  | waited (vm : VM)

/-- `turn_vm_on(vmList, vmnames, si)` (lines 96-105): for each inventory
VM whose name was requested, submit `PowerOn` and wait unless the VM is
already powered on. -/
def turn_vm_on : List VM → List String → List PowerEvent
  | [], _ => []
  | vm :: rest, vmnames =>
    (if vm.name ∈ vmnames then
      if vm.powerState ≠ PowerState.poweredOn then
        [PowerEvent.onTask vm, PowerEvent.waited vm]
      else []
    else []) ++ turn_vm_on rest vmnames

/-- `turn_vm_off(vmList, vmnames, si)` (lines 107-116): for each inventory
VM whose name was requested, submit `PowerOff` and wait unless the VM is
already powered off. -/
def turn_vm_off : List VM → List String → List PowerEvent
  | [], _ => []
  | vm :: rest, vmnames =>
    (if vm.name ∈ vmnames then
      if vm.powerState ≠ PowerState.poweredOff then
        [PowerEvent.offTask vm, PowerEvent.waited vm]
      else []
    else []) ++ turn_vm_off rest vmnames

/-- A search state that has recorded a find: the flag is set and `task`
holds a singleton list, as every match branch writes it. -/
def GoodFound (st : SearchState) : Prop :=
  st.snapshot_found = true ∧ ∃ t, st.task = some [t]

/-- The requested snapshot name is reachable by the source's search:
some requested VM carries it within the first three levels of its
snapshot tree. -/
def snapshotReachable (vmList : List VM) (vmnames : List String)
    (snapshot_name : String) : Bool :=
  vmList.any fun vm =>
    decide (vm.name ∈ vmnames) &&
      foundWithin snapshot_name 3 vm.rootSnapshotList

instance exceptDecEq {α β : Type} [DecidableEq α] [DecidableEq β] :
    DecidableEq (Except α β) := fun a b =>
  match a, b with
  | Except.error x, Except.error y =>
    if h : x = y then Decidable.isTrue (by rw [h])
    else Decidable.isFalse (fun hc => h (Except.error.inj hc))
  | Except.error _, Except.ok _ =>
    Decidable.isFalse (fun hc => Except.noConfusion hc)
  | Except.ok _, Except.error _ =>
    Decidable.isFalse (fun hc => Except.noConfusion hc)
  | Except.ok x, Except.ok y =>
    if h : x = y then Decidable.isTrue (by rw [h])
    else Decidable.isFalse (fun hc => h (Except.ok.inj hc))

/-! ### Concrete fixtures used by the witness theorems -/

def taskA : VmTask := VmTask.mk "A" "errA"

def taskB : VmTask := VmTask.mk "B" "errB"

def taskC : VmTask := VmTask.mk "C" "errC"

def successChange : Change := Change.mk "info.state" (ChangeVal.raw TaskState.success)

def successObjChange : Change := Change.mk "info" (ChangeVal.obj TaskState.success)

def errorChange : Change := Change.mk "info" (ChangeVal.obj TaskState.error)

def successUpdate (t : VmTask) (ver : Version) : UpdateSet :=
  UpdateSet.mk [FilterUpdate.mk [ObjectUpdate.mk t [successChange]]] ver

def sampleTasks : List VmTask := [taskA, taskB, taskC]

def sampleUpdates : List UpdateSet :=
  [successUpdate taskC 1,
   UpdateSet.mk
     [FilterUpdate.mk
       [ObjectUpdate.mk taskA [successObjChange],
        ObjectUpdate.mk taskB [successChange]]] 2]

def snapL4 : SnapshotTree := SnapshotTree.node "level4" "S4" []

def snapTreeA : SnapshotTree :=
  SnapshotTree.node "level1" "S1"
    [SnapshotTree.node "level2" "S2"
      [SnapshotTree.node "level3" "S3" [snapL4]]]

def vmAlpha : VM := VM.mk "alpha" PowerState.poweredOff [snapTreeA]

def vmBeta : VM := VM.mk "beta" PowerState.poweredOn []

/-! ### Basic facts about single-record processing -/

theorem processChange_none {tl : List TaskId} {t : VmTask} {c : Change}
    (hs : stateOf c = none) : processChange tl t c = Except.ok tl := by
  simp [processChange, hs]

theorem processChange_not_mem {tl : List TaskId} {t : VmTask} {c : Change}
    (hm : t.id ∉ tl) : processChange tl t c = Except.ok tl := by
  unfold processChange
  cases stateOf c with
  | none => rfl
  | some st => simp [hm]

theorem processChange_success_mem {tl : List TaskId} {t : VmTask} {c : Change}
    (hs : stateOf c = some TaskState.success) (hm : t.id ∈ tl) :
    processChange tl t c = Except.ok (tl.erase t.id) := by
  simp [processChange, hs, hm]

theorem processChange_error_mem {tl : List TaskId} {t : VmTask} {c : Change}
    (hs : stateOf c = some TaskState.error) (hm : t.id ∈ tl) :
    processChange tl t c = Except.error t.infoError := by
  simp [processChange, hs, hm]

theorem processChange_nil {t : VmTask} {c : Change} :
    processChange [] t c = Except.ok [] := by
  unfold processChange
  cases stateOf c with
  | none => rfl
  | some st => simp

/-- A successful record-processing step either leaves the task list alone
or erases exactly the record's task id after a Success observation. -/
theorem processChange_ok_cases {tl tl2 : List TaskId} {t : VmTask} {c : Change}
    (h : processChange tl t c = Except.ok tl2) :
    tl2 = tl ∨
      (stateOf c = some TaskState.success ∧ t.id ∈ tl ∧ tl2 = tl.erase t.id) := by
  unfold processChange at h
  split at h
  · exact Or.inl (Except.ok.inj h).symm
  · rename_i st hs
    split at h
    · rename_i hm
      split at h
      · rename_i hsu
        exact Or.inr ⟨by rw [hs, hsu], hm, (Except.ok.inj h).symm⟩
      · split at h
        · exact absurd h (by simp)
        · exact Or.inl (Except.ok.inj h).symm
    · exact Or.inl (Except.ok.inj h).symm

/-! ### Flattening the three nested loops to one occurrence list -/

theorem processOccs_append (a b : List (VmTask × Change)) :
    ∀ tl : List TaskId,
      processOccs tl (a ++ b) =
        match processOccs tl a with
        | Except.error e => Except.error e
        | Except.ok tl2 => processOccs tl2 b := by
  induction a with
  | nil => intro tl; rfl
  | cons p ps ih =>
    intro tl
    show processOccs tl (p :: (ps ++ b)) = _
    simp only [processOccs]
    cases processChange tl p.1 p.2 with
    | error e => rfl
    | ok tl2 => exact ih tl2

theorem processChanges_eq_occs (task : VmTask) (cs : List Change) :
    ∀ tl : List TaskId,
      processChanges task tl cs = processOccs tl (cs.map fun c => (task, c)) := by
  induction cs with
  | nil => intro tl; rfl
  | cons c cs ih =>
    intro tl
    simp only [processChanges, List.map_cons, processOccs]
    cases processChange tl task c with
    | error e => rfl
    | ok tl2 => exact ih tl2

theorem processObjSets_eq_occs (os : List ObjectUpdate) :
    ∀ tl : List TaskId,
      processObjSets tl os =
        processOccs tl
          (os.flatMap fun o => o.changeSet.map fun c => (o.obj, c)) := by
  induction os with
  | nil => intro tl; rfl
  | cons o os ih =>
    intro tl
    simp only [processObjSets, List.flatMap_cons]
    rw [processOccs_append, processChanges_eq_occs]
    cases processOccs tl (o.changeSet.map fun c => (o.obj, c)) with
    | error e => rfl
    | ok tl2 => exact ih tl2

theorem processFilterSets_eq_occs (fs : List FilterUpdate) :
    ∀ tl : List TaskId,
      processFilterSets tl fs =
        processOccs tl
          (fs.flatMap fun f =>
            f.objectSet.flatMap fun o =>
              o.changeSet.map fun c => (o.obj, c)) := by
  induction fs with
  | nil => intro tl; rfl
  | cons f fs ih =>
    intro tl
    simp only [processFilterSets, List.flatMap_cons]
    rw [processOccs_append, processObjSets_eq_occs]
    cases processOccs tl (f.objectSet.flatMap fun o => o.changeSet.map fun c => (o.obj, c)) with
    | error e => rfl
    | ok tl2 => exact ih tl2

theorem processUpdate_eq_occs (u : UpdateSet) (tl : List TaskId) :
    processUpdate tl u = processOccs tl (updateOccs u) :=
  processFilterSets_eq_occs u.filterSet tl

theorem processChange_nonterminal {tl : List TaskId} {t : VmTask} {c : Change}
    {st : TaskState} (hs : stateOf c = some st)
    (h1 : st ≠ TaskState.success) (h2 : st ≠ TaskState.error) :
    processChange tl t c = Except.ok tl := by
  unfold processChange
  rw [hs]
  by_cases hm : t.id ∈ tl <;> simp [hm, h1, h2]

theorem processOccs_nil_tl (ps : List (VmTask × Change)) :
    processOccs [] ps = Except.ok [] := by
  induction ps with
  | nil => rfl
  | cons p ps ih =>
    show (match processChange [] p.1 p.2 with
      | Except.error e => Except.error e
      | Except.ok tl2 => processOccs tl2 ps) = Except.ok []
    rw [processChange_nil]
    exact ih

theorem processOccs_sublist (ps : List (VmTask × Change)) :
    ∀ tl tl2 : List TaskId, processOccs tl ps = Except.ok tl2 →
      tl2.Sublist tl := by
  induction ps with
  | nil =>
    intro tl tl2 h
    rw [Except.ok.inj h]
  | cons p ps ih =>
    intro tl tl2 h
    simp only [processOccs] at h
    cases hstep : processChange tl p.1 p.2 with
    | error e => rw [hstep] at h; cases h
    | ok tl1 =>
      rw [hstep] at h
      have h1 := ih tl1 tl2 h
      rcases processChange_ok_cases hstep with rfl | ⟨_, _, rfl⟩
      · exact h1
      · exact h1.trans (List.erase_sublist _ _)

theorem runUpdates_eq_occs (us : List UpdateSet) :
    ∀ tl : List TaskId,
      runUpdates tl us = processOccs tl (us.flatMap updateOccs) := by
  induction us with
  | nil => intro tl; rfl
  | cons u us ih =>
    intro tl
    simp only [runUpdates, List.flatMap_cons]
    rw [processOccs_append, processUpdate_eq_occs]
    cases processOccs tl (updateOccs u) with
    | error e => rfl
    | ok tl2 => exact ih tl2

theorem runUpdates_nil_tl (us : List UpdateSet) :
    runUpdates [] us = Except.ok [] := by
  rw [runUpdates_eq_occs]
  exact processOccs_nil_tl _

/-- The loop exits with success exactly when consuming the stream drives
the task list to empty without a raised error; the cursor argument plays
no role in the outcome. -/
theorem waitLoopEv_success_iff (us : List UpdateSet) :
    ∀ (v : Option Version) (tl : List TaskId),
      (waitLoopEv us v tl).1 = WaitResult.success ↔
        runUpdates tl us = Except.ok [] := by
  induction us with
  | nil =>
    intro v tl
    cases tl with
    | nil => simp [waitLoopEv, runUpdates]
    | cons a as => simp [waitLoopEv, runUpdates]
  | cons u us ih =>
    intro v tl
    cases tl with
    | nil =>
      simp only [waitLoopEv, List.isEmpty_nil, if_pos]
      simp [runUpdates_nil_tl]
    | cons a as =>
      simp only [waitLoopEv, List.isEmpty_cons, Bool.false_eq_true, if_false]
      cases hp : processUpdate (a :: as) u with
      | error e => simp [runUpdates, hp]
      | ok tl2 =>
        simp only [runUpdates, hp]
        exact ih (some u.version) tl2

/-- A run over occurrences none of which reports Error for a tracked id
raises nothing, only shrinks the list, and leaves no id that received a
Success record. -/
theorem processOccs_no_error (occs : List (VmTask × Change)) :
    ∀ tl : List TaskId, tl.Nodup →
      (∀ p ∈ occs, stateOf p.2 = some TaskState.error → p.1.id ∉ tl) →
      ∃ tl2, processOccs tl occs = Except.ok tl2 ∧ tl2.Sublist tl ∧
        ∀ id ∈ tl2,
          ¬ ∃ p ∈ occs, p.1.id = id ∧ stateOf p.2 = some TaskState.success := by
  induction occs with
  | nil =>
    intro tl hnd herr
    exact ⟨tl, rfl, List.Sublist.refl tl, by simp⟩
  | cons p ps ih =>
    intro tl hnd herr
    have herr2 : ∀ q ∈ ps, stateOf q.2 = some TaskState.error → q.1.id ∉ tl :=
      fun q hq he => herr q (List.mem_cons_of_mem _ hq) he
    cases hs : stateOf p.2 with
    | none =>
      obtain ⟨tl2, hrun, hsub, hno⟩ := ih tl hnd herr2
      refine ⟨tl2, ?_, hsub, ?_⟩
      · simp only [processOccs]
        rw [processChange_none hs]
        exact hrun
      · rintro id hid ⟨q, hq, hqid, hqs⟩
        rcases List.mem_cons.mp hq with rfl | hq2
        · rw [hs] at hqs; cases hqs
        · exact hno id hid ⟨q, hq2, hqid, hqs⟩
    | some st =>
      by_cases hm : p.1.id ∈ tl
      · cases st with
        | success =>
          have hnd2 : (tl.erase p.1.id).Nodup := hnd.erase _
          have herr3 : ∀ q ∈ ps, stateOf q.2 = some TaskState.error →
              q.1.id ∉ tl.erase p.1.id := by
            intro q hq he hmem
            exact herr2 q hq he ((List.erase_sublist _ _).subset hmem)
          obtain ⟨tl2, hrun, hsub, hno⟩ := ih _ hnd2 herr3
          refine ⟨tl2, ?_, hsub.trans (List.erase_sublist _ _), ?_⟩
          · simp only [processOccs]
            rw [processChange_success_mem hs hm]
            exact hrun
          · rintro id hid ⟨q, hq, hqid, hqs⟩
            rcases List.mem_cons.mp hq with rfl | hq2
            · have h1 : id ∈ tl.erase q.1.id := hsub.subset hid
              rw [← hqid] at h1
              exact ((hnd.mem_erase_iff).mp h1).1 rfl
            · exact hno id hid ⟨q, hq2, hqid, hqs⟩
        | error => exact absurd hm (herr p (List.mem_cons_self _ _) hs)
        | queued =>
          obtain ⟨tl2, hrun, hsub, hno⟩ := ih tl hnd herr2
          refine ⟨tl2, ?_, hsub, ?_⟩
          · simp only [processOccs]
            rw [processChange_nonterminal hs (by simp) (by simp)]
            exact hrun
          · rintro id hid ⟨q, hq, hqid, hqs⟩
            rcases List.mem_cons.mp hq with rfl | hq2
            · rw [hs] at hqs; cases hqs
            · exact hno id hid ⟨q, hq2, hqid, hqs⟩
        | running =>
          obtain ⟨tl2, hrun, hsub, hno⟩ := ih tl hnd herr2
          refine ⟨tl2, ?_, hsub, ?_⟩
          · simp only [processOccs]
            rw [processChange_nonterminal hs (by simp) (by simp)]
            exact hrun
          · rintro id hid ⟨q, hq, hqid, hqs⟩
            rcases List.mem_cons.mp hq with rfl | hq2
            · rw [hs] at hqs; cases hqs
            · exact hno id hid ⟨q, hq2, hqid, hqs⟩
      · obtain ⟨tl2, hrun, hsub, hno⟩ := ih tl hnd herr2
        refine ⟨tl2, ?_, hsub, ?_⟩
        · simp only [processOccs]
          rw [processChange_not_mem hm]
          exact hrun
        · rintro id hid ⟨q, hq, hqid, hqs⟩
          rcases List.mem_cons.mp hq with rfl | hq2
          · exact hm (hqid ▸ hsub.subset hid)
          · exact hno id hid ⟨q, hq2, hqid, hqs⟩

/-- An id can only leave the task list through a Success occurrence for it. -/
theorem processOccs_removal (occs : List (VmTask × Change)) :
    ∀ tl tl2 : List TaskId, processOccs tl occs = Except.ok tl2 →
      ∀ id ∈ tl, id ∉ tl2 →
        ∃ p ∈ occs, p.1.id = id ∧ stateOf p.2 = some TaskState.success := by
  induction occs with
  | nil =>
    intro tl tl2 h id hin hout
    rw [← Except.ok.inj h] at hout
    exact absurd hin hout
  | cons p ps ih =>
    intro tl tl2 h id hin hout
    simp only [processOccs] at h
    cases hstep : processChange tl p.1 p.2 with
    | error e => rw [hstep] at h; cases h
    | ok tl1 =>
      rw [hstep] at h
      rcases processChange_ok_cases hstep with rfl | ⟨hs, hm, rfl⟩
      · obtain ⟨q, hq, h1, h2⟩ := ih _ tl2 h id hin hout
        exact ⟨q, List.mem_cons_of_mem _ hq, h1, h2⟩
      · by_cases hid : id = p.1.id
        · exact ⟨p, List.mem_cons_self _ _, hid.symm, hs⟩
        · have hin1 : id ∈ tl.erase p.1.id := (List.mem_erase_of_ne hid).mpr hin
          obtain ⟨q, hq, h1, h2⟩ := ih _ tl2 h id hin1 hout
          exact ⟨q, List.mem_cons_of_mem _ hq, h1, h2⟩

/-! ### Unfolding the wait loop one step at a time -/

theorem waitLoopEv_nil_tl (us : List UpdateSet) (v : Option Version) :
    waitLoopEv us v [] = (WaitResult.success, []) := by
  unfold waitLoopEv
  rfl

theorem waitLoopEv_nil_us {tl : List TaskId} (v : Option Version)
    (h : ¬ tl.isEmpty = true) :
    waitLoopEv [] v tl = (WaitResult.blocked, [Event.receive v]) := by
  unfold waitLoopEv
  rw [if_neg h]

theorem waitLoopEv_cons_err {us : List UpdateSet} {u : UpdateSet}
    {v : Option Version} {tl : List TaskId} {e : ErrPayload}
    (h : ¬ tl.isEmpty = true) (hp : processUpdate tl u = Except.error e) :
    waitLoopEv (u :: us) v tl = (WaitResult.taskError e, [Event.receive v]) := by
  unfold waitLoopEv
  rw [if_neg h]
  show (match processUpdate tl u with
    | Except.error e => (WaitResult.taskError e, [Event.receive v])
    | Except.ok tl2 =>
      let p := waitLoopEv us (some u.version) tl2
      (p.1, Event.receive v :: p.2)) = _
  rw [hp]

theorem waitLoopEv_cons_ok {us : List UpdateSet} {u : UpdateSet}
    {v : Option Version} {tl tl2 : List TaskId}
    (h : ¬ tl.isEmpty = true) (hp : processUpdate tl u = Except.ok tl2) :
    waitLoopEv (u :: us) v tl =
      ((waitLoopEv us (some u.version) tl2).1,
        Event.receive v :: (waitLoopEv us (some u.version) tl2).2) := by
  conv_lhs => rw [waitLoopEv]
  rw [if_neg h]
  show (match processUpdate tl u with
    | Except.error e => (WaitResult.taskError e, [Event.receive v])
    | Except.ok tl2 =>
      let p := waitLoopEv us (some u.version) tl2
      (p.1, Event.receive v :: p.2)) = _
  rw [hp]

/-! ### The loop's event trace -/

/-- The loop itself only ever performs receives: filter creation and
destruction happen outside it. -/
theorem waitLoopEv_events (us : List UpdateSet) :
    ∀ (v : Option Version) (tl : List TaskId) (e : Event),
      e ∈ (waitLoopEv us v tl).2 → ∃ c, e = Event.receive c := by
  induction us with
  | nil =>
    intro v tl e he
    cases tl with
    | nil => rw [waitLoopEv_nil_tl] at he; cases he
    | cons a as =>
      rw [waitLoopEv_nil_us v (by simp)] at he
      simp only [List.mem_singleton] at he
      exact ⟨v, he⟩
  | cons u rest ih =>
    intro v tl e he
    cases tl with
    | nil => rw [waitLoopEv_nil_tl] at he; cases he
    | cons a as =>
      cases hp : processUpdate (a :: as) u with
      | error er =>
        rw [waitLoopEv_cons_err (by simp) hp] at he
        simp only [List.mem_singleton] at he
        exact ⟨v, he⟩
      | ok tl2 =>
        rw [waitLoopEv_cons_ok (by simp) hp] at he
        simp only [List.mem_cons] at he
        rcases he with rfl | he2
        · exact ⟨v, rfl⟩
        · exact ih _ tl2 e he2

theorem receiveCursors_cons_receive (v : Option Version) (l : List Event) :
    receiveCursors (Event.receive v :: l) = v :: receiveCursors l := by
  simp [receiveCursors]

theorem receiveCursors_cons_create (l : List Event) :
    receiveCursors (Event.createFilter :: l) = receiveCursors l := by
  simp [receiveCursors]

theorem receiveCursors_append (a b : List Event) :
    receiveCursors (a ++ b) = receiveCursors a ++ receiveCursors b :=
  List.filterMap_append a b _

/-- The cursors handed to the successive receives: the first receive gets
the starting cursor, and each later receive gets exactly the version token
returned by the batch consumed just before it. -/
theorem waitLoopEv_cursors (us : List UpdateSet) :
    ∀ (v : Option Version) (tl : List TaskId),
      receiveCursors (waitLoopEv us v tl).2 =
        (v :: us.map fun u => some u.version).take
          (receiveCursors (waitLoopEv us v tl).2).length := by
  induction us with
  | nil =>
    intro v tl
    cases tl with
    | nil => rw [waitLoopEv_nil_tl]; rfl
    | cons a as => rw [waitLoopEv_nil_us v (by simp)]; rfl
  | cons u rest ih =>
    intro v tl
    cases tl with
    | nil => rw [waitLoopEv_nil_tl]; rfl
    | cons a as =>
      cases hp : processUpdate (a :: as) u with
      | error er => rw [waitLoopEv_cons_err (by simp) hp]; rfl
      | ok tl2 =>
        rw [waitLoopEv_cons_ok (by simp) hp]
        simp only [receiveCursors_cons_receive, List.map_cons,
          List.length_cons, List.take_succ_cons]
        exact congrArg (List.cons v) (ih (some u.version) tl2)

/-! ### Claim theorems -/

/-- C1: for every non-empty, duplicate-free set of task handles and every
notification schedule that reports no Error for a tracked handle and
eventually reports Success for every handle (in any order, spread over any
batches), `WaitForTasks` returns success; success is only ever returned
after a Success record has been observed for every handle; and the loop
exits with success exactly when consuming the stream empties the active
task list. -/
theorem claim_C1 (tasks : List VmTask) (updates : List UpdateSet)
    (hne : tasks ≠ [])
    (hnd : (tasks.map VmTask.id).Nodup)
    (herr : ∀ u ∈ updates, ∀ p ∈ updateOccs u,
      stateOf p.2 = some TaskState.error → p.1.id ∉ tasks.map VmTask.id)
    (hsucc : ∀ id ∈ tasks.map VmTask.id, ∃ u ∈ updates, hasSuccessFor u id) :
    (WaitForTasks tasks updates).1 = WaitResult.success ∧
    (∀ (us : List UpdateSet) (tl : List TaskId),
      waitLoop us tl = WaitResult.success →
        ∀ id ∈ tl, ∃ u ∈ us, hasSuccessFor u id) ∧
    (∀ (us : List UpdateSet) (tl : List TaskId),
      waitLoop us tl = WaitResult.success ↔
        runUpdates tl us = Except.ok []) := by
  have hchar : ∀ (us : List UpdateSet) (tl : List TaskId),
      waitLoop us tl = WaitResult.success ↔
        runUpdates tl us = Except.ok [] :=
    fun us tl => waitLoopEv_success_iff us none tl
  have honly : ∀ (us : List UpdateSet) (tl : List TaskId),
      waitLoop us tl = WaitResult.success →
        ∀ id ∈ tl, ∃ u ∈ us, hasSuccessFor u id := by
    intro us tl h id hid
    have hrun := (hchar us tl).mp h
    rw [runUpdates_eq_occs] at hrun
    obtain ⟨p, hp, hpid, hps⟩ :=
      processOccs_removal _ tl [] hrun id hid (by simp)
    obtain ⟨u, hu, hpu⟩ := List.mem_flatMap.mp hp
    exact ⟨u, hu, p, hpu, hpid, hps⟩
  refine ⟨?_, honly, hchar⟩
  show waitLoop updates (tasks.map VmTask.id) = WaitResult.success
  rw [hchar, runUpdates_eq_occs]
  have herr2 : ∀ p ∈ updates.flatMap updateOccs,
      stateOf p.2 = some TaskState.error → p.1.id ∉ tasks.map VmTask.id := by
    intro p hp he
    obtain ⟨u, hu, hpu⟩ := List.mem_flatMap.mp hp
    exact herr u hu p hpu he
  obtain ⟨tl2, hrun, hsub, hno⟩ :=
    processOccs_no_error (updates.flatMap updateOccs) _ hnd herr2
  cases htl2 : tl2 with
  | nil => rw [htl2] at hrun; exact hrun
  | cons a as =>
    exfalso
    have ha : a ∈ tl2 := htl2 ▸ List.mem_cons_self a as
    obtain ⟨u, hu, p, hpu, hpid, hps⟩ := hsucc a (hsub.subset ha)
    exact hno a ha ⟨p, List.mem_flatMap.mpr ⟨u, hu, hpu⟩, hpid, hps⟩

/-- Witness for C1 at handles {A, B, C} with Success notifications
arriving in order C, then A and B, across two batches. -/
theorem claim_C1_witness :
    sampleTasks ≠ [] ∧
    (sampleTasks.map VmTask.id).Nodup ∧
    (∀ u ∈ sampleUpdates, ∀ p ∈ updateOccs u,
      stateOf p.2 = some TaskState.error →
        p.1.id ∉ sampleTasks.map VmTask.id) ∧
    (∀ id ∈ sampleTasks.map VmTask.id,
      ∃ u ∈ sampleUpdates, hasSuccessFor u id) ∧
    (WaitForTasks sampleTasks sampleUpdates).1 = WaitResult.success :=
  ⟨by decide, by decide, by decide, by decide,
    (claim_C1 sampleTasks sampleUpdates (by decide) (by decide) (by decide)
      (by decide)).1⟩

/-- C2: the first Error record processed for a still-tracked handle makes
`WaitForTasks` raise that task's `info.error` payload at once: the result
and the event trace are independent of every record after it in the batch,
of every later batch, and of any other tracked handle still waiting. -/
theorem claim_C2 (tasks : List VmTask) (pre : List ObjectUpdate)
    (t : VmTask) (c : Change) (tl1 : List TaskId)
    (hne : tasks ≠ [])
    (hpre : processObjSets (tasks.map VmTask.id) pre = Except.ok tl1)
    (hmem : t.id ∈ tl1)
    (hs : stateOf c = some TaskState.error) :
    ∀ (more : List Change) (post : List ObjectUpdate)
      (moreFS : List FilterUpdate) (ver : Version) (rest : List UpdateSet),
      WaitForTasks tasks
        (UpdateSet.mk
          (FilterUpdate.mk (pre ++ ObjectUpdate.mk t (c :: more) :: post)
            :: moreFS) ver :: rest) =
        (WaitResult.taskError t.infoError,
          [Event.createFilter, Event.receive none, Event.destroyFilter]) := by
  intro more post moreFS ver rest
  have hnonempty : ¬ (tasks.map VmTask.id).isEmpty = true := by
    cases tasks with
    | nil => exact absurd rfl hne
    | cons a as => simp
  have hobj : processObjSets (tasks.map VmTask.id)
      (pre ++ ObjectUpdate.mk t (c :: more) :: post) =
      Except.error t.infoError := by
    rw [processObjSets_eq_occs, List.flatMap_append, processOccs_append]
    rw [processObjSets_eq_occs] at hpre
    rw [hpre]
    show processOccs tl1
      ((ObjectUpdate.mk t (c :: more) :: post).flatMap fun o =>
        o.changeSet.map fun c => (o.obj, c)) = _
    rw [List.flatMap_cons]
    show processOccs tl1
      (((t, c) :: more.map fun c2 => (t, c2)) ++ _) = _
    rw [processOccs_append]
    show (match processOccs tl1 ((t, c) :: more.map fun c2 => (t, c2)) with
      | Except.error e => Except.error e
      | Except.ok tl2 => processOccs tl2 _) = _
    simp only [processOccs]
    rw [processChange_error_mem hs hmem]
  have hupd : processUpdate (tasks.map VmTask.id)
      (UpdateSet.mk
        (FilterUpdate.mk (pre ++ ObjectUpdate.mk t (c :: more) :: post)
          :: moreFS) ver) = Except.error t.infoError := by
    show processFilterSets (tasks.map VmTask.id)
      (FilterUpdate.mk (pre ++ ObjectUpdate.mk t (c :: more) :: post)
        :: moreFS) = _
    simp only [processFilterSets]
    rw [hobj]
  show (let p := waitLoopEv _ none (tasks.map VmTask.id)
    (p.1, Event.createFilter :: p.2 ++
      (if p.1 = WaitResult.blocked then [] else [Event.destroyFilter]))) = _
  rw [waitLoopEv_cons_err hnonempty hupd]
  rfl

/-- Witness for C2: with handles {A, B}, A's Error record arrives before
any notification for B, which is still waiting; the wait returns A's
payload at once. -/
theorem claim_C2_witness :
    ([taskA, taskB] : List VmTask) ≠ [] ∧
    processObjSets ([taskA, taskB].map VmTask.id) [] = Except.ok ["A", "B"] ∧
    taskA.id ∈ (["A", "B"] : List TaskId) ∧
    stateOf errorChange = some TaskState.error ∧
    WaitForTasks [taskA, taskB]
      (UpdateSet.mk
        (FilterUpdate.mk ([] ++ ObjectUpdate.mk taskA [errorChange] :: [ObjectUpdate.mk taskB [successChange]])
          :: []) 5 :: [successUpdate taskB 6]) =
      (WaitResult.taskError taskA.infoError,
        [Event.createFilter, Event.receive none, Event.destroyFilter]) :=
  ⟨by decide, by decide, by decide, by decide,
    claim_C2 [taskA, taskB] [] taskA errorChange ["A", "B"] (by decide)
      (by decide) (by decide) (by decide) []
      [ObjectUpdate.mk taskB [successChange]] [] 5 [successUpdate taskB 6]⟩

/-- C3: whenever `WaitForTasks` actually returns (success or raised task
error), the subscription filter created at entry is destroyed exactly
once, and destruction is the last recorded event before control returns. -/
theorem claim_C3 (tasks : List VmTask) (updates : List UpdateSet)
    (h : (WaitForTasks tasks updates).1 ≠ WaitResult.blocked) :
    ((WaitForTasks tasks updates).2.count Event.destroyFilter = 1) ∧
    (WaitForTasks tasks updates).2.getLast? = some Event.destroyFilter := by
  have hloop : ∀ e ∈ (waitLoopEv updates none (tasks.map VmTask.id)).2,
      ∃ c, e = Event.receive c := waitLoopEv_events updates none _
  have hz : (waitLoopEv updates none (tasks.map VmTask.id)).2.count
      Event.destroyFilter = 0 := by
    rw [List.count_eq_zero]
    intro hmem
    obtain ⟨c, hc⟩ := hloop _ hmem
    cases hc
  have hne : ¬ (waitLoopEv updates none (tasks.map VmTask.id)).1 =
      WaitResult.blocked := h
  have htr : (WaitForTasks tasks updates).2 =
      (Event.createFilter ::
        (waitLoopEv updates none (tasks.map VmTask.id)).2) ++
          [Event.destroyFilter] := by
    show Event.createFilter :: _ ++
        (if (waitLoopEv updates none (tasks.map VmTask.id)).1 =
          WaitResult.blocked then [] else [Event.destroyFilter]) = _
    rw [if_neg hne]
  constructor
  · rw [htr, List.count_append, List.count_cons, hz]
    simp
  · rw [htr, List.getLast?_concat]

/-- Witness for C3 on the three-handle success scenario. -/
theorem claim_C3_witness :
    (WaitForTasks sampleTasks sampleUpdates).1 ≠ WaitResult.blocked ∧
    ((WaitForTasks sampleTasks sampleUpdates).2.count Event.destroyFilter = 1) ∧
    (WaitForTasks sampleTasks sampleUpdates).2.getLast? =
      some Event.destroyFilter :=
  ⟨by decide, claim_C3 sampleTasks sampleUpdates (by decide)⟩

/-- C4, counterexample to the claim as stated: on an empty task
collection the source still calls `pc.CreateFilter` (line 63 runs before
the loop), so a subscription filter is created. -/
theorem claim_C4_counterexample :
    (WaitForTasks [] []).1 = WaitResult.success ∧
    Event.createFilter ∈ (WaitForTasks [] []).2 := by
  decide

/-- C4 as amended: on an empty task collection `WaitForTasks` returns
success immediately, with no receive ever performed, but it does create
the subscription filter and then destroys it. -/
theorem claim_C4 (updates : List UpdateSet) :
    WaitForTasks [] updates =
      (WaitResult.success, [Event.createFilter, Event.destroyFilter]) := by
  show (let p := waitLoopEv updates none ([] : List TaskId)
    (p.1, Event.createFilter :: p.2 ++
      (if p.1 = WaitResult.blocked then [] else [Event.destroyFilter]))) = _
  rw [waitLoopEv_nil_tl]
  rfl

/-- C5: a record named `info` yields the state component of its value, a
record named `info.state` yields its value itself, and a record with any
other field name, or one whose task is not in the active list, leaves the
list (and hence the wait's outcome) untouched. -/
theorem claim_C5 (tl : List TaskId) (task : VmTask) (st : TaskState) :
    stateOf (Change.mk "info" (ChangeVal.obj st)) = some st ∧
    stateOf (Change.mk "info.state" (ChangeVal.raw st)) = some st ∧
    (∀ (nm : String) (v : ChangeVal), nm ≠ "info" → nm ≠ "info.state" →
      processChange tl task (Change.mk nm v) = Except.ok tl) ∧
    (∀ c : Change, task.id ∉ tl → processChange tl task c = Except.ok tl) := by
  refine ⟨rfl, rfl, ?_, fun c hm => processChange_not_mem hm⟩
  intro nm v h1 h2
  apply processChange_none
  show (if nm = "info" then _ else if nm = "info.state" then _ else none) = none
  rw [if_neg h1, if_neg h2]

/-- Witness for C5: an unrecognized field name and an untracked handle are
both ignored. -/
theorem claim_C5_witness :
    processChange ["A"] taskB
      (Change.mk "other" (ChangeVal.raw TaskState.success)) =
        Except.ok ["A"] ∧
    processChange ["A"] taskB errorChange = Except.ok ["A"] :=
  ⟨(claim_C5 ["A"] taskB TaskState.success).2.2.1 "other"
      (ChangeVal.raw TaskState.success) (by decide) (by decide),
    (claim_C5 ["A"] taskB TaskState.success).2.2.2 errorChange (by decide)⟩

/-- C6: a Success record for a handle no longer in the active list is a
harmless no-op: it raises nothing, leaves the list as it was, and
processing the rest of the records proceeds exactly as if the duplicate
had not been there. -/
theorem claim_C6 (task : VmTask) (c : Change)
    (hs : stateOf c = some TaskState.success) :
    ∀ (tl : List TaskId) (cs : List Change), task.id ∉ tl →
      processChange tl task c = Except.ok tl ∧
      processChanges task tl (c :: cs) = processChanges task tl cs := by
  intro tl cs hm
  refine ⟨processChange_not_mem hm, ?_⟩
  simp only [processChanges]
  rw [processChange_not_mem hm]

/-- Witness for C6: a duplicate Success record for the already-removed
handle A ahead of B's records changes nothing. -/
theorem claim_C6_witness :
    stateOf successChange = some TaskState.success ∧
    taskA.id ∉ (["B"] : List TaskId) ∧
    processChange ["B"] taskA successChange = Except.ok ["B"] ∧
    processChanges taskA ["B"] [successChange, successObjChange] =
      processChanges taskA ["B"] [successObjChange] :=
  ⟨by decide, by decide,
    (claim_C6 taskA successChange (by decide) ["B"] [successObjChange]
      (by decide)).1,
    (claim_C6 taskA successChange (by decide) ["B"] [successObjChange]
      (by decide)).2⟩

/-- C7: the active task list only ever shrinks (each processing step
returns a sublist, so it always stays within the caller-provided
handles); a step changes the list only by erasing exactly the id of a
task whose Success was observed (the "only when"); a Success observed
for a still-tracked task does remove exactly that task's id (the
"when"); and an Error observation for a tracked task removes nothing —
it raises, leaving the list as it was. -/
theorem claim_C7 :
    (∀ (tl tl2 : List TaskId) (t : VmTask) (c : Change),
      processChange tl t c = Except.ok tl2 → tl2.Sublist tl) ∧
    (∀ (tl tl2 : List TaskId) (t : VmTask) (c : Change),
      processChange tl t c = Except.ok tl2 → tl2 ≠ tl →
        stateOf c = some TaskState.success ∧ t.id ∈ tl ∧
          tl2 = tl.erase t.id) ∧
    (∀ (tl : List TaskId) (t : VmTask) (c : Change),
      stateOf c = some TaskState.success → t.id ∈ tl →
        processChange tl t c = Except.ok (tl.erase t.id)) ∧
    (∀ (tl : List TaskId) (t : VmTask) (c : Change),
      stateOf c = some TaskState.error → t.id ∈ tl →
        processChange tl t c = Except.error t.infoError) ∧
    (∀ (tl tl2 : List TaskId) (u : UpdateSet),
      processUpdate tl u = Except.ok tl2 → tl2.Sublist tl) := by
  refine ⟨?_, ?_,
    fun tl t c hs hm => processChange_success_mem hs hm,
    fun tl t c hs hm => processChange_error_mem hs hm, ?_⟩
  · intro tl tl2 t c h
    rcases processChange_ok_cases h with rfl | ⟨_, _, rfl⟩
    · exact List.Sublist.refl _
    · exact List.erase_sublist _ _
  · intro tl tl2 t c h hne
    rcases processChange_ok_cases h with rfl | hcase
    · exact absurd rfl hne
    · exact hcase
  · intro tl tl2 u h
    rw [processUpdate_eq_occs] at h
    exact processOccs_sublist _ tl tl2 h

/-- Witness for C7: a Success observation for the tracked id A erases
exactly it, the remaining list is a sublist of the original, and an
Error observation for a tracked id raises its payload. -/
theorem claim_C7_witness :
    processChange ["A", "B"] taskA successChange = Except.ok ["B"] ∧
    (["B"] : List TaskId).Sublist ["A", "B"] ∧
    processChange ["A", "B"] taskA errorChange =
      Except.error taskA.infoError :=
  ⟨claim_C7.2.2.1 ["A", "B"] taskA successChange (by decide) (by decide),
    claim_C7.1 ["A", "B"] ["B"] taskA successChange (by decide),
    claim_C7.2.2.2.1 ["A", "B"] taskA errorChange (by decide) (by decide)⟩

/-- C8: the first receive is issued with the cursor empty (`none`), and
every later receive is issued with exactly the version token returned by
the batch consumed just before it: the cursor list of any run is a prefix
of `none` followed by the successive batch versions. -/
theorem claim_C8 (tasks : List VmTask) (updates : List UpdateSet) :
    receiveCursors (WaitForTasks tasks updates).2 =
      (none :: updates.map fun u => some u.version).take
        (receiveCursors (WaitForTasks tasks updates).2).length := by
  have htr : (WaitForTasks tasks updates).2 =
      (Event.createFilter ::
        (waitLoopEv updates none (tasks.map VmTask.id)).2) ++
        (if (waitLoopEv updates none (tasks.map VmTask.id)).1 =
          WaitResult.blocked then [] else [Event.destroyFilter]) := rfl
  have htail : receiveCursors
      (if (waitLoopEv updates none (tasks.map VmTask.id)).1 =
        WaitResult.blocked then [] else [Event.destroyFilter]) = [] := by
    split <;> rfl
  rw [htr, receiveCursors_append, htail, List.append_nil,
    receiveCursors_cons_create]
  exact waitLoopEv_cursors updates none _

/-! ### The three-level snapshot search -/

theorem submitRevert_good (st : SearchState) (snap : String) :
    GoodFound (submitRevert st snap) :=
  ⟨rfl, RevertToSnapshot_Task snap, rfl⟩

theorem scanL3_no (name : String) :
    ∀ l : List SnapshotTree, foundWithin name 1 l = false →
      ∀ st, scanL3 name st l = st := by
  intro l
  induction l with
  | nil => intro _ st; rfl
  | cons s rest ih =>
    intro h st
    have h' : ((decide (name = s.name) ||
        foundWithin name 0 s.childSnapshotList) ||
        foundWithin name 1 rest) = false := h
    rw [Bool.or_eq_false_iff] at h'
    obtain ⟨h1, h2⟩ := h'
    rw [Bool.or_eq_false_iff] at h1
    have hn : ¬ name = s.name := by simpa using h1.1
    show (if name = s.name then submitRevert st s.snapshot
      else scanL3 name st rest) = st
    rw [if_neg hn]
    exact ih h2 st

theorem scanL2_no (name : String) :
    ∀ l : List SnapshotTree, foundWithin name 2 l = false →
      ∀ st, scanL2 name st l = st := by
  intro l
  induction l with
  | nil => intro _ st; rfl
  | cons s rest ih =>
    intro h st
    have h' : ((decide (name = s.name) ||
        foundWithin name 1 s.childSnapshotList) ||
        foundWithin name 2 rest) = false := h
    rw [Bool.or_eq_false_iff] at h'
    obtain ⟨h1, h2⟩ := h'
    rw [Bool.or_eq_false_iff] at h1
    have hn : ¬ name = s.name := by simpa using h1.1
    show (if name = s.name then submitRevert st s.snapshot
      else scanL2 name (scanL3 name st s.childSnapshotList) rest) = st
    rw [if_neg hn, scanL3_no name s.childSnapshotList h1.2]
    exact ih h2 st

theorem scanL1_no (name : String) :
    ∀ l : List SnapshotTree, foundWithin name 3 l = false →
      ∀ st, scanL1 name st l = st := by
  intro l
  induction l with
  | nil => intro _ st; rfl
  | cons s rest ih =>
    intro h st
    have h' : ((decide (name = s.name) ||
        foundWithin name 2 s.childSnapshotList) ||
        foundWithin name 3 rest) = false := h
    rw [Bool.or_eq_false_iff] at h'
    obtain ⟨h1, h2⟩ := h'
    rw [Bool.or_eq_false_iff] at h1
    have hn : ¬ name = s.name := by simpa using h1.1
    show (if name = s.name then submitRevert st s.snapshot
      else scanL1 name (scanL2 name st s.childSnapshotList) rest) = st
    rw [if_neg hn, scanL2_no name s.childSnapshotList h1.2]
    exact ih h2 st

theorem scanL3_shape (name : String) :
    ∀ (l : List SnapshotTree) (st : SearchState),
      scanL3 name st l = st ∨
        ∃ st2 snap, scanL3 name st l = submitRevert st2 snap := by
  intro l
  induction l with
  | nil => intro st; exact Or.inl rfl
  | cons s rest ih =>
    intro st
    show (if name = s.name then submitRevert st s.snapshot
      else scanL3 name st rest) = st ∨
      ∃ st2 snap, (if name = s.name then submitRevert st s.snapshot
        else scanL3 name st rest) = submitRevert st2 snap
    by_cases hn : name = s.name
    · rw [if_pos hn]
      exact Or.inr ⟨st, s.snapshot, rfl⟩
    · rw [if_neg hn]
      exact ih st

theorem scanL2_shape (name : String) :
    ∀ (l : List SnapshotTree) (st : SearchState),
      scanL2 name st l = st ∨
        ∃ st2 snap, scanL2 name st l = submitRevert st2 snap := by
  intro l
  induction l with
  | nil => intro st; exact Or.inl rfl
  | cons s rest ih =>
    intro st
    show (if name = s.name then submitRevert st s.snapshot
      else scanL2 name (scanL3 name st s.childSnapshotList) rest) = st ∨
      ∃ st2 snap, (if name = s.name then submitRevert st s.snapshot
        else scanL2 name (scanL3 name st s.childSnapshotList) rest) = submitRevert st2 snap
    by_cases hn : name = s.name
    · rw [if_pos hn]
      exact Or.inr ⟨st, s.snapshot, rfl⟩
    · rw [if_neg hn]
      rcases ih (scanL3 name st s.childSnapshotList) with heq | hsub
      · rw [heq]
        exact scanL3_shape name s.childSnapshotList st
      · exact Or.inr hsub

theorem scanL1_shape (name : String) :
    ∀ (l : List SnapshotTree) (st : SearchState),
      scanL1 name st l = st ∨
        ∃ st2 snap, scanL1 name st l = submitRevert st2 snap := by
  intro l
  induction l with
  | nil => intro st; exact Or.inl rfl
  | cons s rest ih =>
    intro st
    show (if name = s.name then submitRevert st s.snapshot
      else scanL1 name (scanL2 name st s.childSnapshotList) rest) = st ∨
      ∃ st2 snap, (if name = s.name then submitRevert st s.snapshot
        else scanL1 name (scanL2 name st s.childSnapshotList) rest) = submitRevert st2 snap
    by_cases hn : name = s.name
    · rw [if_pos hn]
      exact Or.inr ⟨st, s.snapshot, rfl⟩
    · rw [if_neg hn]
      rcases ih (scanL2 name st s.childSnapshotList) with heq | hsub
      · rw [heq]
        exact scanL2_shape name s.childSnapshotList st
      · exact Or.inr hsub

theorem scanL2_good_mono (name : String) (l : List SnapshotTree)
    (st : SearchState) (h : GoodFound st) : GoodFound (scanL2 name st l) := by
  rcases scanL2_shape name l st with heq | ⟨st2, snap, heq⟩ <;> rw [heq]
  · exact h
  · exact submitRevert_good st2 snap

theorem scanL1_good_mono (name : String) (l : List SnapshotTree)
    (st : SearchState) (h : GoodFound st) : GoodFound (scanL1 name st l) := by
  rcases scanL1_shape name l st with heq | ⟨st2, snap, heq⟩ <;> rw [heq]
  · exact h
  · exact submitRevert_good st2 snap

theorem scanL3_found (name : String) :
    ∀ l : List SnapshotTree, foundWithin name 1 l = true →
      ∀ st, GoodFound (scanL3 name st l) := by
  intro l
  induction l with
  | nil => intro h; exact Bool.noConfusion h
  | cons s rest ih =>
    intro h st
    show GoodFound (if name = s.name then submitRevert st s.snapshot
      else scanL3 name st rest)
    by_cases hn : name = s.name
    · rw [if_pos hn]
      exact submitRevert_good st s.snapshot
    · rw [if_neg hn]
      have h' : ((decide (name = s.name) ||
          foundWithin name 0 s.childSnapshotList) ||
          foundWithin name 1 rest) = true := h
      rw [decide_eq_false hn] at h'
      have h0 : foundWithin name 0 s.childSnapshotList = false := rfl
      rw [h0] at h'
      simp only [Bool.or_self, Bool.false_or] at h'
      exact ih h' st

theorem scanL2_found (name : String) :
    ∀ l : List SnapshotTree, foundWithin name 2 l = true →
      ∀ st, GoodFound (scanL2 name st l) := by
  intro l
  induction l with
  | nil => intro h; exact Bool.noConfusion h
  | cons s rest ih =>
    intro h st
    show GoodFound (if name = s.name then submitRevert st s.snapshot
      else scanL2 name (scanL3 name st s.childSnapshotList) rest)
    by_cases hn : name = s.name
    · rw [if_pos hn]
      exact submitRevert_good st s.snapshot
    · rw [if_neg hn]
      have h' : ((decide (name = s.name) ||
          foundWithin name 1 s.childSnapshotList) ||
          foundWithin name 2 rest) = true := h
      rw [decide_eq_false hn, Bool.false_or] at h'
      rcases Bool.or_eq_true_iff.mp h' with hc | hr
      · exact scanL2_good_mono name rest _ (scanL3_found name _ hc st)
      · exact ih hr _

theorem scanL1_found (name : String) :
    ∀ l : List SnapshotTree, foundWithin name 3 l = true →
      ∀ st, GoodFound (scanL1 name st l) := by
  intro l
  induction l with
  | nil => intro h; exact Bool.noConfusion h
  | cons s rest ih =>
    intro h st
    show GoodFound (if name = s.name then submitRevert st s.snapshot
      else scanL1 name (scanL2 name st s.childSnapshotList) rest)
    by_cases hn : name = s.name
    · rw [if_pos hn]
      exact submitRevert_good st s.snapshot
    · rw [if_neg hn]
      have h' : ((decide (name = s.name) ||
          foundWithin name 2 s.childSnapshotList) ||
          foundWithin name 3 rest) = true := h
      rw [decide_eq_false hn, Bool.false_or] at h'
      rcases Bool.or_eq_true_iff.mp h' with hc | hr
      · exact scanL1_good_mono name rest _ (scanL2_found name _ hc st)
      · exact ih hr _

theorem revertFold_mono (vmnames : List String) (name : String) :
    ∀ (vms : List VM) (st : SearchState), GoodFound st →
      GoodFound (vms.foldl
        (fun st vm =>
          if vm.name ∈ vmnames then scanL1 name st vm.rootSnapshotList
          else st) st) := by
  intro vms
  induction vms with
  | nil => intro st h; exact h
  | cons vm rest ih =>
    intro st h
    rw [List.foldl_cons]
    by_cases hm : vm.name ∈ vmnames
    · rw [if_pos hm]
      exact ih _ (scanL1_good_mono name vm.rootSnapshotList st h)
    · rw [if_neg hm]
      exact ih st h

theorem revertFold_found (vmnames : List String) (name : String) :
    ∀ (vms : List VM) (st : SearchState),
      (vms.any fun vm => decide (vm.name ∈ vmnames) &&
        foundWithin name 3 vm.rootSnapshotList) = true →
      GoodFound (vms.foldl
        (fun st vm =>
          if vm.name ∈ vmnames then scanL1 name st vm.rootSnapshotList
          else st) st) := by
  intro vms
  induction vms with
  | nil => intro st h; exact Bool.noConfusion h
  | cons vm rest ih =>
    intro st h
    rw [List.foldl_cons]
    have h' : ((decide (vm.name ∈ vmnames) &&
        foundWithin name 3 vm.rootSnapshotList) ||
        rest.any fun vm => decide (vm.name ∈ vmnames) &&
          foundWithin name 3 vm.rootSnapshotList) = true := h
    rcases Bool.or_eq_true_iff.mp h' with hhead | htail
    · obtain ⟨hm, hf⟩ := Bool.and_eq_true_iff.mp hhead
      rw [if_pos (of_decide_eq_true hm)]
      exact revertFold_mono vmnames name rest _
        (scanL1_found name vm.rootSnapshotList hf st)
    · exact ih _ htail

theorem revertFold_no (vmnames : List String) (name : String) :
    ∀ (vms : List VM) (st : SearchState),
      (vms.any fun vm => decide (vm.name ∈ vmnames) &&
        foundWithin name 3 vm.rootSnapshotList) = false →
      vms.foldl
        (fun st vm =>
          if vm.name ∈ vmnames then scanL1 name st vm.rootSnapshotList
          else st) st = st := by
  intro vms
  induction vms with
  | nil => intro st _; rfl
  | cons vm rest ih =>
    intro st h
    have h' : ((decide (vm.name ∈ vmnames) &&
        foundWithin name 3 vm.rootSnapshotList) ||
        rest.any fun vm => decide (vm.name ∈ vmnames) &&
          foundWithin name 3 vm.rootSnapshotList) = false := h
    rw [Bool.or_eq_false_iff] at h'
    obtain ⟨h1, h2⟩ := h'
    rw [List.foldl_cons]
    have hstep : (if vm.name ∈ vmnames
        then scanL1 name st vm.rootSnapshotList else st) = st := by
      by_cases hm : vm.name ∈ vmnames
      · rw [if_pos hm]
        rcases Bool.and_eq_false_iff.mp h1 with ha | hb
        · rw [decide_eq_true hm] at ha
          exact Bool.noConfusion ha
        · exact scanL1_no name vm.rootSnapshotList hb st
      · rw [if_neg hm]
    rw [hstep]
    exact ih st h2

/-- C9: the snapshot search of `revert_vm` reaches exactly the first
three levels of a requested VM's snapshot tree: a name present there makes
`revert_vm` wait on a singleton revert-task list, while a name present
only at depth four or more (or absent) yields the not-found report, with
no revert task submitted and no wait performed. -/
theorem claim_C9 (vmList : List VM) (vmnames : List String) (name : String) :
    (snapshotReachable vmList vmnames name = true →
      ∃ t, (revert_vm vmList vmnames name).1 =
        RevertOutcome.reverted [t]) ∧
    (snapshotReachable vmList vmnames name = false →
      (revert_vm vmList vmnames name).1 = RevertOutcome.notFound ∧
      (revert_vm vmList vmnames name).2 = []) := by
  constructor
  · intro h
    have hg : GoodFound (revertScan vmList vmnames name) :=
      revertFold_found vmnames name vmList (SearchState.mk false none []) h
    obtain ⟨hf, t, ht⟩ := hg
    refine ⟨t, ?_⟩
    show (let st := revertScan vmList vmnames name
      if st.snapshot_found then
        match st.task with
        | some tl => (RevertOutcome.reverted tl, st.submits)
        | none => (RevertOutcome.notFound, st.submits)
      else (RevertOutcome.notFound, st.submits)).1 = _
    simp only [hf, ht, if_true]
  · intro h
    have hid : revertScan vmList vmnames name = SearchState.mk false none [] :=
      revertFold_no vmnames name vmList (SearchState.mk false none []) h
    have hrw : revert_vm vmList vmnames name = (RevertOutcome.notFound, []) := by
      show (let st := revertScan vmList vmnames name
        if st.snapshot_found then
          match st.task with
          | some tl => (RevertOutcome.reverted tl, st.submits)
          | none => (RevertOutcome.notFound, st.submits)
        else (RevertOutcome.notFound, st.submits)) = _
      rw [hid]
      rfl
    rw [hrw]
    exact ⟨rfl, rfl⟩

/-- Witness for C9: in a chain root/level2/level3/level4, the name at
level 3 is reverted with a singleton task list, while the name at level 4
is reported not found with no submission. -/
theorem claim_C9_witness :
    snapshotReachable [vmAlpha, vmBeta] ["alpha"] "level3" = true ∧
    snapshotReachable [vmAlpha, vmBeta] ["alpha"] "level4" = false ∧
    (∃ t, (revert_vm [vmAlpha, vmBeta] ["alpha"] "level3").1 =
      RevertOutcome.reverted [t]) ∧
    ((revert_vm [vmAlpha, vmBeta] ["alpha"] "level4").1 =
        RevertOutcome.notFound ∧
      (revert_vm [vmAlpha, vmBeta] ["alpha"] "level4").2 = []) :=
  ⟨by decide, by decide,
    (claim_C9 [vmAlpha, vmBeta] ["alpha"] "level3").1 (by decide),
    (claim_C9 [vmAlpha, vmBeta] ["alpha"] "level4").2 (by decide)⟩

/-- C10: a requested VM contributes a PowerOn (resp. PowerOff) task
submission followed by a wait exactly when its power state differs from
the requested one; a VM already in the requested state contributes no
task and no wait, and the rest of the inventory is processed unchanged
either way. -/
theorem claim_C10 (vmnames : List String) (vm : VM) (rest : List VM) :
    (vm.name ∈ vmnames → vm.powerState ≠ PowerState.poweredOn →
      turn_vm_on (vm :: rest) vmnames =
        PowerEvent.onTask vm :: PowerEvent.waited vm ::
          turn_vm_on rest vmnames) ∧
    (vm.name ∈ vmnames → vm.powerState = PowerState.poweredOn →
      turn_vm_on (vm :: rest) vmnames = turn_vm_on rest vmnames) ∧
    (vm.name ∈ vmnames → vm.powerState ≠ PowerState.poweredOff →
      turn_vm_off (vm :: rest) vmnames =
        PowerEvent.offTask vm :: PowerEvent.waited vm ::
          turn_vm_off rest vmnames) ∧
    (vm.name ∈ vmnames → vm.powerState = PowerState.poweredOff →
      turn_vm_off (vm :: rest) vmnames = turn_vm_off rest vmnames) := by
  refine ⟨?_, ?_, ?_, ?_⟩ <;> intro hm hp
  · show (if vm.name ∈ vmnames then
        if vm.powerState ≠ PowerState.poweredOn then
          [PowerEvent.onTask vm, PowerEvent.waited vm]
        else []
      else []) ++ turn_vm_on rest vmnames = _
    rw [if_pos hm, if_pos hp]
    rfl
  · show (if vm.name ∈ vmnames then
        if vm.powerState ≠ PowerState.poweredOn then
          [PowerEvent.onTask vm, PowerEvent.waited vm]
        else []
      else []) ++ turn_vm_on rest vmnames = _
    rw [if_pos hm, if_neg (fun hne => hne hp), List.nil_append]
  · show (if vm.name ∈ vmnames then
        if vm.powerState ≠ PowerState.poweredOff then
          [PowerEvent.offTask vm, PowerEvent.waited vm]
        else []
      else []) ++ turn_vm_off rest vmnames = _
    rw [if_pos hm, if_pos hp]
    rfl
  · show (if vm.name ∈ vmnames then
        if vm.powerState ≠ PowerState.poweredOff then
          [PowerEvent.offTask vm, PowerEvent.waited vm]
        else []
      else []) ++ turn_vm_off rest vmnames = _
    rw [if_pos hm, if_neg (fun hne => hne hp), List.nil_append]

/-- Witness for C10: the powered-off VM alpha is powered on with a wait,
while the powered-on VM beta is skipped by `turn_vm_on`; symmetrically
for `turn_vm_off`. -/
theorem claim_C10_witness :
    turn_vm_on [vmAlpha] ["alpha", "beta"] =
      [PowerEvent.onTask vmAlpha, PowerEvent.waited vmAlpha] ∧
    turn_vm_on [vmBeta] ["alpha", "beta"] = [] ∧
    turn_vm_off [vmBeta] ["alpha", "beta"] =
      [PowerEvent.offTask vmBeta, PowerEvent.waited vmBeta] ∧
    turn_vm_off [vmAlpha] ["alpha", "beta"] = [] :=
  ⟨(claim_C10 ["alpha", "beta"] vmAlpha []).1 (by decide) (by decide),
    (claim_C10 ["alpha", "beta"] vmBeta []).2.1 (by decide) (by decide),
    (claim_C10 ["alpha", "beta"] vmBeta []).2.2.1 (by decide) (by decide),
    (claim_C10 ["alpha", "beta"] vmAlpha []).2.2.2 (by decide) (by decide)⟩
